import Mathlib

set_option linter.unnecessarySimpa false

/-!
Verification of the goadb device/wire layer against its specification.

The Go source is shallowly embedded: byte streams are `List Nat` (each
element a byte value), Go strings are `List Char`, machine integers are
`Nat` with explicit bounds where the width matters, and fallible code
returns `Except`/`Option`. Functions whose source is present
(`DecodeV2Data`, `DecodeDataFromReader`, `adbServerError`,
`prepareCommandLine`, the `Device` facade methods, `Pull`, `Push`) are
translated from that source; collaborators that are only declared in the
repository (the internal errors package, `calculateStateDiffs`,
`isBlank`, `containsWhitespace`) are modelled from the specification and
say so in their doc comments.
-/

namespace GoAdb

/-! ## Bytes and little-endian 32-bit lengths -/

/-- Byte access used by the decoders: `data[i]`, with 0 out of range
(the Go code never actually reads out of range on the paths we model). -/
def byteAt (data : List Nat) (i : Nat) : Nat := data.getD i 0

/-- The value of four bytes read little-endian, as in
`binary.LittleEndian.Uint32(data[offset+1 : offset+5])`. -/
def dec32 (b0 b1 b2 b3 : Nat) : Nat :=
  b0 + 256 * b1 + 65536 * b2 + 16777216 * b3

/-- Little-endian encoding of a 32-bit value into four bytes. -/
def enc32 (n : Nat) : List Nat :=
  [n % 256, n / 256 % 256, n / 65536 % 256, n / 16777216 % 256]

theorem dec32_enc32 (n : Nat) (h : n < 4294967296) :
    dec32 (n % 256) (n / 256 % 256) (n / 65536 % 256) (n / 16777216 % 256) = n := by
  unfold dec32
  omega

theorem byteAt_cons_succ (a : Nat) (x : List Nat) (m : Nat) :
    byteAt (a :: x) (m + 1) = byteAt x m := rfl

theorem byteAt_append (pre l : List Nat) (i : Nat) :
    byteAt (pre ++ l) (pre.length + i) = byteAt l i := by
  induction pre with
  | nil => simp
  | cons a pre ih =>
      have h1 : (a :: pre).length + i = pre.length + i + 1 := by
        simp [List.length_cons]; omega
      rw [List.cons_append, h1, byteAt_cons_succ]; exact ih

theorem drop_append_len {α : Type} (pre l : List α) (k : Nat) :
    (pre ++ l).drop (pre.length + k) = l.drop k := by
  induction pre with
  | nil => simp
  | cons a pre ih =>
      have h1 : (a :: pre).length + k = pre.length + k + 1 := by
        simp [List.length_cons]; omega
      rw [List.cons_append, h1]
      exact ih

/-! ## Shell v2 packets -/

/-- One shell v2 packet: an id byte and a payload. -/
structure Packet where
  id : Nat
  payload : List Nat
deriving DecidableEq

/-- Wire form of one packet: id byte, little-endian u32 payload length,
then the payload. -/
def encPacket (p : Packet) : List Nat :=
  p.id :: (enc32 p.payload.length ++ p.payload)

/-- Wire form of a packet sequence: flat concatenation. -/
def encAll (ps : List Packet) : List Nat :=
  (ps.map encPacket).flatten

/-- A packet the decoder accepts silently: id 1, 2 or 3, and a payload
length representable in the u32 length field. -/
def validPacket (p : Packet) : Prop :=
  (p.id = 1 ∨ p.id = 2 ∨ p.id = 3) ∧ p.payload.length < 4294967296

instance (p : Packet) : Decidable (validPacket p) := by
  unfold validPacket; infer_instance

theorem length_encPacket (p : Packet) : (encPacket p).length = 5 + p.payload.length := by
  simp [encPacket, enc32]
  omega

theorem encAll_cons (p : Packet) (ps : List Packet) :
    encAll (p :: ps) = encPacket p ++ encAll ps := by
  simp [encAll]

theorem encAll_nil : encAll [] = [] := rfl

/-! ## The decoder loop (`DecodeV2Data`, source lines 718-771)

The Go loop walks `data` by an `offset`, reads a 5-byte header, checks
completeness, dispatches on the packet id, and appends any short tail to
stdout. The state record carries exactly the Go local variables: the
offset, the exit code, and the bytes written so far to the stdout and
stderr sinks. The returned `Option Nat` is the ParseError payload: the
unknown packet id, when one was hit. -/

structure ScanState where
  offset : Nat
  exitCode : Nat
  outBytes : List Nat
  errBytes : List Nat
deriving DecidableEq

def scanPackets (data : List Nat) (st : ScanState) : ScanState × Option Nat :=
  if h : st.offset < data.length then
    if st.offset + 5 > data.length then
      ({ st with outBytes := st.outBytes ++ data.drop st.offset }, none)
    else
      let packetId := byteAt data st.offset
      let dataLen := dec32 (byteAt data (st.offset + 1)) (byteAt data (st.offset + 2))
        (byteAt data (st.offset + 3)) (byteAt data (st.offset + 4))
      if st.offset + 5 + dataLen > data.length then
        ({ st with outBytes := st.outBytes ++ data.drop st.offset }, none)
      else
        let packetData := (data.drop (st.offset + 5)).take dataLen
        if packetId = 1 then
          scanPackets data { st with offset := st.offset + 5 + dataLen, outBytes := st.outBytes ++ packetData }
        else if packetId = 2 then
          scanPackets data { st with offset := st.offset + 5 + dataLen, errBytes := st.errBytes ++ packetData }
        else if packetId = 3 then
          scanPackets data { st with offset := st.offset + 5 + dataLen, exitCode := if packetData ≠ [] then packetData.headD 0 else st.exitCode }
        else
          (st, some packetId)
  else
    (st, none)
termination_by data.length - st.offset
decreasing_by all_goals omega

/-- `DecodeV2Data data stdout stderr`: result is
(exit code, stdout bytes, stderr bytes, unknown-id error if any).
On the error path the Go function returns exit code 0. -/
def DecodeV2Data (data : List Nat) : Nat × List Nat × List Nat × Option Nat :=
  let r := scanPackets data ⟨0, 0, [], []⟩
  match r.2 with
  | some id => (0, r.1.outBytes, r.1.errBytes, some id)
  | none => (r.1.exitCode, r.1.outBytes, r.1.errBytes, none)

/-- The read loop of `DecodeDataFromReader` (source lines 773-849): the
reader is modelled as the list of chunks its successive `Read` calls
deliver, followed by EOF. Faithful to the source, the scan state —
including the `offset` variable, which the source declares outside the
read loop and never resets — persists from one chunk to the next. -/
def readChunks : List (List Nat) → ScanState → Nat × List Nat × List Nat × Option Nat
  | [], st => (st.exitCode, st.outBytes, st.errBytes, none)
  | c :: rest, st =>
    let r := scanPackets c st
    match r.2 with
    | some id => (0, r.1.outBytes, r.1.errBytes, some id)
    | none => readChunks rest r.1

def DecodeDataFromReader (chunks : List (List Nat)) : Nat × List Nat × List Nat × Option Nat :=
  readChunks chunks ⟨0, 0, [], []⟩

/-! ## Specification-side descriptions of the decode result -/

/-- The payload length a 5-byte-or-longer fragment declares in its header. -/
def fragDeclaredLen (frag : List Nat) : Nat :=
  dec32 (byteAt frag 1) (byteAt frag 2) (byteAt frag 3) (byteAt frag 4)

/-- A fragment the decoder treats as a short tail: fewer than 5 header
bytes, or a header declaring more payload bytes than remain. The empty
fragment vacuously qualifies. -/
def fragShort (frag : List Nat) : Prop :=
  frag.length < 5 ∨ frag.length < 5 + fragDeclaredLen frag

instance (frag : List Nat) : Decidable (fragShort frag) := by
  unfold fragShort; infer_instance

/-- Concatenation of the payloads of the id-1 packets, in order. -/
def stdoutPayloads (ps : List Packet) : List Nat :=
  ((ps.filter (fun p => p.id == 1)).map Packet.payload).flatten

/-- Concatenation of the payloads of the id-2 packets, in order. -/
def stderrPayloads (ps : List Packet) : List Nat :=
  ((ps.filter (fun p => p.id == 2)).map Packet.payload).flatten

/-- The exit-code variable after folding the packet sequence, starting
from `ex`: each id-3 packet with a non-empty payload overwrites it with
the payload's first byte. -/
def foldExit (ex : Nat) (ps : List Packet) : Nat :=
  ps.foldl (fun e p => if p.id = 3 ∧ p.payload ≠ [] then p.payload.headD 0 else e) ex

/-- The first byte of the payload of the last id-3 packet with a
non-empty payload, or 0 when no such packet occurs. -/
def lastExitCode (ps : List Packet) : Nat :=
  match ps.reverse.find? (fun p => p.id == 3 && !p.payload.isEmpty) with
  | some p => p.payload.headD 0
  | none => 0

theorem stdoutPayloads_cons (p : Packet) (ps : List Packet) :
    stdoutPayloads (p :: ps) = (if p.id = 1 then p.payload else []) ++ stdoutPayloads ps := by
  by_cases h : p.id = 1 <;> simp [stdoutPayloads, List.filter_cons, h]

theorem stderrPayloads_cons (p : Packet) (ps : List Packet) :
    stderrPayloads (p :: ps) = (if p.id = 2 then p.payload else []) ++ stderrPayloads ps := by
  by_cases h : p.id = 2 <;> simp [stderrPayloads, List.filter_cons, h]

theorem foldExit_cons (ex : Nat) (p : Packet) (ps : List Packet) :
    foldExit ex (p :: ps) =
      foldExit (if p.id = 3 ∧ p.payload ≠ [] then p.payload.headD 0 else ex) ps := rfl

theorem find_append_one {α : Type} (l : List α) (f : α → Bool) (a : α) :
    (l ++ [a]).find? f =
      match l.find? f with
      | some x => some x
      | none => if f a then some a else none := by
  induction l with
  | nil => cases h : f a <;> simp [List.find?, h]
  | cons c l ih =>
      cases hc : f c
      · rw [List.cons_append, List.find?_cons_of_neg _ (by simp [hc]), ih,
          List.find?_cons_of_neg _ (by simp [hc])]
      · rw [List.cons_append, List.find?_cons_of_pos _ hc, List.find?_cons_of_pos _ hc]

/-- The left fold computing the exit code is the "last qualifying packet"
description, with `ex` as the default. -/
theorem foldExit_eq_last (ps : List Packet) (ex : Nat) :
    foldExit ex ps =
      match ps.reverse.find? (fun p => p.id == 3 && !p.payload.isEmpty) with
      | some p => p.payload.headD 0
      | none => ex := by
  induction ps generalizing ex with
  | nil => simp [foldExit, List.find?]
  | cons p ps ih =>
      rw [foldExit_cons, ih]
      have hrev : (p :: ps).reverse = ps.reverse ++ [p] := by simp
      rw [hrev, find_append_one]
      by_cases hq : (p.id == 3 && !p.payload.isEmpty) = true
      · have hq' : p.id = 3 ∧ p.payload ≠ [] := by
          simp only [Bool.and_eq_true, beq_iff_eq, Bool.not_eq_true', List.isEmpty_eq_false] at hq
          exact hq
        rw [if_pos hq']
        cases h : ps.reverse.find? (fun p => p.id == 3 && !p.payload.isEmpty) <;> simp [hq]
      · have hq' : ¬(p.id = 3 ∧ p.payload ≠ []) := by
          simp only [Bool.and_eq_true, beq_iff_eq, Bool.not_eq_true', List.isEmpty_eq_false] at hq
          exact hq
        rw [if_neg hq']
        cases h : ps.reverse.find? (fun p => p.id == 3 && !p.payload.isEmpty) <;> simp [hq]

theorem lastExitCode_eq_foldExit (ps : List Packet) :
    lastExitCode ps = foldExit 0 ps := by
  rw [foldExit_eq_last]; rfl

/-! ## Stepping lemmas for the scan loop -/

theorem byteAt_append_zero (pre l : List Nat) :
    byteAt (pre ++ l) pre.length = byteAt l 0 := by
  have h := byteAt_append pre l 0
  rw [Nat.add_zero] at h
  exact h

/-- Reaching a short tail: the loop appends the remaining bytes to
stdout and stops without error, leaving the offset at the tail. -/
theorem scan_tail (pre tail : List Nat) (ex : Nat) (so se : List Nat)
    (ht : fragShort tail) :
    scanPackets (pre ++ tail) ⟨pre.length, ex, so, se⟩ = (⟨pre.length, ex, so ++ tail, se⟩, none) := by
  have hdrop : (pre ++ tail).drop pre.length = tail := by
    have h := drop_append_len pre tail 0
    simpa using h
  have hlen : (pre ++ tail).length = pre.length + tail.length := by simp
  rw [scanPackets]
  dsimp only
  by_cases hlt : pre.length < (pre ++ tail).length
  · rw [dif_pos hlt]
    by_cases h5 : pre.length + 5 > (pre ++ tail).length
    · rw [if_pos h5, hdrop]
    · rw [if_neg h5]
      have h5' : 5 ≤ tail.length := by omega
      have hdl : dec32 (byteAt (pre ++ tail) (pre.length + 1)) (byteAt (pre ++ tail) (pre.length + 2))
          (byteAt (pre ++ tail) (pre.length + 3)) (byteAt (pre ++ tail) (pre.length + 4)) =
          fragDeclaredLen tail := by
        rw [byteAt_append, byteAt_append, byteAt_append, byteAt_append]; rfl
      rw [hdl]
      have hbig : tail.length < 5 + fragDeclaredLen tail := by
        rcases ht with h | h
        · omega
        · exact h
      rw [if_pos (by omega), hdrop]
  · rw [dif_neg hlt]
    have : tail.length = 0 := by omega
    have htail : tail = [] := List.eq_nil_of_length_eq_zero this
    subst htail
    simp

theorem encPacket_append (p : Packet) (suffix : List Nat) :
    encPacket p ++ suffix = p.id :: p.payload.length % 256 :: p.payload.length / 256 % 256 ::
      p.payload.length / 65536 % 256 :: p.payload.length / 16777216 % 256 :: (p.payload ++ suffix) := by
  simp [encPacket, enc32]

/-- One loop iteration over a complete packet with a known id: the header
is read back, the payload is extracted, and the loop continues past the
packet with the stdout/stderr/exit state advanced accordingly. -/
theorem scan_step (pre suffix : List Nat) (p : Packet) (hv : validPacket p)
    (ex : Nat) (so se : List Nat) :
    scanPackets (pre ++ (encPacket p ++ suffix)) ⟨pre.length, ex, so, se⟩ =
      scanPackets (pre ++ (encPacket p ++ suffix))
        ⟨pre.length + 5 + p.payload.length,
         if p.id = 3 ∧ p.payload ≠ [] then p.payload.headD 0 else ex,
         so ++ (if p.id = 1 then p.payload else []),
         se ++ (if p.id = 2 then p.payload else [])⟩ := by
  obtain ⟨hid, hlen32⟩ := hv
  have hcons := encPacket_append p suffix
  have hlen : (pre ++ (encPacket p ++ suffix)).length =
      pre.length + 5 + p.payload.length + suffix.length := by
    rw [hcons]; simp; omega
  have hb0 : byteAt (pre ++ (encPacket p ++ suffix)) pre.length = p.id := by
    rw [byteAt_append_zero, hcons]; rfl
  have hdl : dec32 (byteAt (pre ++ (encPacket p ++ suffix)) (pre.length + 1))
      (byteAt (pre ++ (encPacket p ++ suffix)) (pre.length + 2))
      (byteAt (pre ++ (encPacket p ++ suffix)) (pre.length + 3))
      (byteAt (pre ++ (encPacket p ++ suffix)) (pre.length + 4)) = p.payload.length := by
    rw [byteAt_append, byteAt_append, byteAt_append, byteAt_append, hcons]
    exact dec32_enc32 _ hlen32
  have hdrop5 : (pre ++ (encPacket p ++ suffix)).drop (pre.length + 5) = p.payload ++ suffix := by
    rw [drop_append_len, hcons]; rfl
  have htake : (p.payload ++ suffix).take p.payload.length = p.payload :=
    List.take_left p.payload suffix
  rw [scanPackets]
  dsimp only
  rw [dif_pos (by omega : pre.length < (pre ++ (encPacket p ++ suffix)).length)]
  rw [if_neg (by omega : ¬(pre.length + 5 > (pre ++ (encPacket p ++ suffix)).length))]
  rw [hb0, hdl]
  rw [if_neg (by omega : ¬(pre.length + 5 + p.payload.length > (pre ++ (encPacket p ++ suffix)).length))]
  rw [hdrop5, htake]
  rcases hid with h1 | h2 | h3
  · rw [if_pos h1]
    simp [h1]
  · rw [if_neg (by omega), if_pos h2]
    simp [h2]
  · rw [if_neg (by omega), if_neg (by omega), if_pos h3]
    simp [h3]

/-- One loop iteration over a complete packet with an unknown id: the
loop stops and reports that id, leaving the accumulated state as is. -/
theorem scan_bad (pre suffix : List Nat) (q : Packet)
    (hq : ¬(q.id = 1 ∨ q.id = 2 ∨ q.id = 3)) (hlen32 : q.payload.length < 4294967296)
    (ex : Nat) (so se : List Nat) :
    scanPackets (pre ++ (encPacket q ++ suffix)) ⟨pre.length, ex, so, se⟩ =
      (⟨pre.length, ex, so, se⟩, some q.id) := by
  push_neg at hq
  obtain ⟨hq1, hq2, hq3⟩ := hq
  have hcons := encPacket_append q suffix
  have hlen : (pre ++ (encPacket q ++ suffix)).length =
      pre.length + 5 + q.payload.length + suffix.length := by
    rw [hcons]; simp; omega
  have hb0 : byteAt (pre ++ (encPacket q ++ suffix)) pre.length = q.id := by
    rw [byteAt_append_zero, hcons]; rfl
  have hdl : dec32 (byteAt (pre ++ (encPacket q ++ suffix)) (pre.length + 1))
      (byteAt (pre ++ (encPacket q ++ suffix)) (pre.length + 2))
      (byteAt (pre ++ (encPacket q ++ suffix)) (pre.length + 3))
      (byteAt (pre ++ (encPacket q ++ suffix)) (pre.length + 4)) = q.payload.length := by
    rw [byteAt_append, byteAt_append, byteAt_append, byteAt_append, hcons]
    exact dec32_enc32 _ hlen32
  rw [scanPackets]
  dsimp only
  rw [dif_pos (by omega : pre.length < (pre ++ (encPacket q ++ suffix)).length)]
  rw [if_neg (by omega : ¬(pre.length + 5 > (pre ++ (encPacket q ++ suffix)).length))]
  rw [hb0, hdl]
  rw [if_neg (by omega : ¬(pre.length + 5 + q.payload.length > (pre ++ (encPacket q ++ suffix)).length))]
  rw [if_neg hq1, if_neg hq2, if_neg hq3]

/-- The main induction: a run of valid packets followed by a short tail
decodes to the concatenated payloads, the folded exit code and no error.
The offset ends at the start of the tail. -/
theorem scan_encAll (ps : List Packet) (pre tail : List Nat) (ex : Nat) (so se : List Nat)
    (hv : ∀ p ∈ ps, validPacket p) (ht : fragShort tail) :
    scanPackets (pre ++ (encAll ps ++ tail)) ⟨pre.length, ex, so, se⟩ =
      (⟨pre.length + (encAll ps).length, foldExit ex ps,
        so ++ (stdoutPayloads ps ++ tail), se ++ stderrPayloads ps⟩, none) := by
  induction ps generalizing pre ex so se with
  | nil =>
      have h := scan_tail pre tail ex so se ht
      simpa [encAll, stdoutPayloads, stderrPayloads, foldExit] using h
  | cons p ps ih =>
      have hv0 : validPacket p := hv p (by simp)
      have hvs : ∀ x ∈ ps, validPacket x := fun x hx => hv x (by simp [hx])
      rw [encAll_cons, List.append_assoc]
      rw [scan_step pre (encAll ps ++ tail) p hv0 ex so se]
      have hoff : pre.length + 5 + p.payload.length = (pre ++ encPacket p).length := by
        simp [length_encPacket]; omega
      rw [hoff, ← List.append_assoc]
      rw [ih (pre ++ encPacket p) _ _ _ hvs]
      rw [foldExit_cons, stdoutPayloads_cons, stderrPayloads_cons]
      simp [length_encPacket, encAll_cons, List.append_assoc]
      omega

/-- The bad-id variant of the main induction: valid packets followed by
a complete packet with an id outside the known set and arbitrary further
bytes. The loop processes the valid run, then stops with the unknown id. -/
theorem scan_encAll_bad (ps : List Packet) (pre rest : List Nat) (q : Packet)
    (ex : Nat) (so se : List Nat)
    (hv : ∀ p ∈ ps, validPacket p)
    (hq : ¬(q.id = 1 ∨ q.id = 2 ∨ q.id = 3)) (hqlen : q.payload.length < 4294967296) :
    scanPackets (pre ++ (encAll ps ++ (encPacket q ++ rest))) ⟨pre.length, ex, so, se⟩ =
      (⟨pre.length + (encAll ps).length, foldExit ex ps,
        so ++ stdoutPayloads ps, se ++ stderrPayloads ps⟩, some q.id) := by
  induction ps generalizing pre ex so se with
  | nil =>
      have h := scan_bad pre rest q hq hqlen ex so se
      simpa [encAll, stdoutPayloads, stderrPayloads, foldExit] using h
  | cons p ps ih =>
      have hv0 : validPacket p := hv p (by simp)
      have hvs : ∀ x ∈ ps, validPacket x := fun x hx => hv x (by simp [hx])
      rw [encAll_cons, List.append_assoc]
      rw [scan_step pre (encAll ps ++ (encPacket q ++ rest)) p hv0 ex so se]
      have hoff : pre.length + 5 + p.payload.length = (pre ++ encPacket p).length := by
        simp [length_encPacket]; omega
      rw [hoff, ← List.append_assoc]
      rw [ih (pre ++ encPacket p) _ _ _ hvs]
      rw [foldExit_cons, stdoutPayloads_cons, stderrPayloads_cons]
      simp [length_encPacket, encAll_cons, List.append_assoc]
      omega

theorem scanPackets_stop (data : List Nat) (st : ScanState) (h : ¬ st.offset < data.length) :
    scanPackets data st = (st, none) := by
  rw [scanPackets, dif_neg h]

/-! ## Claim theorems: shell v2 decoding -/

/-- C1: on a well-formed concatenation of shell v2 packets (each packet
an id byte in {1,2,3}, a little-endian u32 length, and that many payload
bytes), `DecodeV2Data` writes the concatenation of the id-1 payloads to
the stdout sink in order and the id-2 payloads to the stderr sink in
order, returns no error, and returns as exit code the first byte of the
payload of the last id-3 packet with non-empty payload, or 0 if no such
packet occurs. -/
theorem DecodeV2Data_wellformed (ps : List Packet) (hv : ∀ p ∈ ps, validPacket p) :
    DecodeV2Data (encAll ps) = (lastExitCode ps, stdoutPayloads ps, stderrPayloads ps, none) := by
  have h := scan_encAll ps [] [] 0 [] [] hv (by unfold fragShort; simp)
  simp at h
  unfold DecodeV2Data
  rw [h, lastExitCode_eq_foldExit]

/-- Witness for C1: the concrete stream from the specification,
`01 05 00 00 00 hello 02 03 00 00 00 err 03 01 00 00 00 2A`, yields
stdout hello, stderr err, exit 42. -/
theorem DecodeV2Data_wellformed_witness :
    DecodeV2Data [1, 5, 0, 0, 0, 104, 101, 108, 108, 111, 2, 3, 0, 0, 0, 101, 114, 114, 3, 1, 0, 0, 0, 42] =
      (42, [104, 101, 108, 108, 111], [101, 114, 114], none) := by
  have h := DecodeV2Data_wellformed
    [⟨1, [104, 101, 108, 108, 111]⟩, ⟨2, [101, 114, 114]⟩, ⟨3, [42]⟩] (by decide)
  rw [show encAll [⟨1, [104, 101, 108, 108, 111]⟩, ⟨2, [101, 114, 114]⟩, ⟨3, [42]⟩] =
    [1, 5, 0, 0, 0, 104, 101, 108, 108, 111, 2, 3, 0, 0, 0, 101, 114, 114, 3, 1, 0, 0, 0, 42] from by decide] at h
  exact h.trans (by decide)

/-- C3: well-formed packets followed by a non-empty trailing fragment —
shorter than 5 bytes, or declaring more payload than remains — decode
without error; the whole fragment, header bytes included, lands on
stdout after the id-1 payloads. -/
theorem DecodeV2Data_truncated (ps : List Packet) (frag : List Nat)
    (hv : ∀ p ∈ ps, validPacket p) (hne : frag ≠ []) (hshort : fragShort frag) :
    DecodeV2Data (encAll ps ++ frag) =
      (lastExitCode ps, stdoutPayloads ps ++ frag, stderrPayloads ps, none) := by
  have h := scan_encAll ps [] frag 0 [] [] hv hshort
  simp at h
  unfold DecodeV2Data
  rw [h, lastExitCode_eq_foldExit]

/-- Witness for C3: input `01 05 00 00 00 'h' 'i'` (header claims 5
payload bytes, only 2 present) yields stdout equal to all 7 raw bytes,
exit 0 and no error. -/
theorem DecodeV2Data_truncated_witness :
    DecodeV2Data [1, 5, 0, 0, 0, 104, 105] = (0, [1, 5, 0, 0, 0, 104, 105], [], none) := by
  have h := DecodeV2Data_truncated [] [1, 5, 0, 0, 0, 104, 105] (by decide) (by decide) (by decide)
  rw [show (encAll [] ++ [1, 5, 0, 0, 0, 104, 105] : List Nat) = [1, 5, 0, 0, 0, 104, 105] from rfl] at h
  exact h.trans (by decide)

/-- C6: a complete packet with an id outside {1,2,3} at a packet
boundary makes `DecodeV2Data` return a ParseError naming that id (and
exit code 0), and no such error is ever returned when all complete
packets carry ids in {1,2,3}. -/
theorem DecodeV2Data_unknown_id :
    (∀ (ps : List Packet) (q : Packet) (rest : List Nat),
        (∀ p ∈ ps, validPacket p) → ¬(q.id = 1 ∨ q.id = 2 ∨ q.id = 3) →
        q.payload.length < 4294967296 →
        DecodeV2Data (encAll ps ++ (encPacket q ++ rest)) =
          (0, stdoutPayloads ps, stderrPayloads ps, some q.id)) ∧
    (∀ (ps : List Packet) (tail : List Nat),
        (∀ p ∈ ps, validPacket p) → fragShort tail →
        (DecodeV2Data (encAll ps ++ tail)).2.2.2 = none) := by
  constructor
  · intro ps q rest hv hq hql
    have h := scan_encAll_bad ps [] rest q 0 [] [] hv hq hql
    simp at h
    unfold DecodeV2Data
    rw [h]
  · intro ps tail hv ht
    have h := scan_encAll ps [] tail 0 [] [] hv ht
    simp at h
    unfold DecodeV2Data
    rw [h]

/-- Witness for C6: an id-9 packet after a good id-1 packet produces the
ParseError naming 9; the same stream without the bad packet produces no
error. -/
theorem DecodeV2Data_unknown_id_witness :
    DecodeV2Data [1, 1, 0, 0, 0, 65, 9, 0, 0, 0, 0] = (0, [65], [], some 9) ∧
    (DecodeV2Data [1, 1, 0, 0, 0, 65]).2.2.2 = none := by
  constructor
  · have h := DecodeV2Data_unknown_id.1 [⟨1, [65]⟩] ⟨9, []⟩ [] (by decide) (by decide) (by decide)
    rw [show (encAll [⟨1, [65]⟩] ++ (encPacket ⟨9, []⟩ ++ []) : List Nat) =
      [1, 1, 0, 0, 0, 65, 9, 0, 0, 0, 0] from by decide] at h
    exact h.trans (by decide)
  · have h := DecodeV2Data_unknown_id.2 [⟨1, [65]⟩] [] (by decide) (by decide)
    rw [show (encAll [⟨1, [65]⟩] ++ [] : List Nat) = [1, 1, 0, 0, 0, 65] from by decide] at h
    exact h

/-- C2 counterexample: the chunking DOES change the decode result. With
the stream split into two single-packet reads, the reader-based decoder
skips the second chunk entirely — the `offset` variable is declared
outside the read loop and still equals the first chunk's length — so it
reports stdout `[65]` where the flat decoder reports `[65, 66]`. -/
theorem DecodeDataFromReader_counterexample :
    DecodeDataFromReader [[1, 1, 0, 0, 0, 65], [1, 1, 0, 0, 0, 66]] = (0, [65], [], none) ∧
    DecodeV2Data ([1, 1, 0, 0, 0, 65] ++ [1, 1, 0, 0, 0, 66]) = (0, [65, 66], [], none) ∧
    DecodeDataFromReader [[1, 1, 0, 0, 0, 65], [1, 1, 0, 0, 0, 66]] ≠
      DecodeV2Data ([1, 1, 0, 0, 0, 65] ++ [1, 1, 0, 0, 0, 66]) := by
  have hc1 : scanPackets [1, 1, 0, 0, 0, 65] ⟨0, 0, [], []⟩ = (⟨6, 0, [65], []⟩, none) := by
    have h := scan_encAll [⟨1, [65]⟩] [] [] 0 [] [] (by decide) (by unfold fragShort; simp)
    simp at h
    rw [show (encAll [⟨1, [65]⟩] : List Nat) = [1, 1, 0, 0, 0, 65] from by decide] at h
    exact h.trans (by decide)
  have hc2 : scanPackets [1, 1, 0, 0, 0, 66] ⟨6, 0, [65], []⟩ = (⟨6, 0, [65], []⟩, none) :=
    scanPackets_stop _ _ (by decide)
  have hreader : DecodeDataFromReader [[1, 1, 0, 0, 0, 65], [1, 1, 0, 0, 0, 66]] = (0, [65], [], none) := by
    unfold DecodeDataFromReader
    rw [readChunks, hc1]
    dsimp only
    rw [readChunks, hc2]
    dsimp only
    rw [readChunks]
  have hflat : DecodeV2Data ([1, 1, 0, 0, 0, 65] ++ [1, 1, 0, 0, 0, 66]) = (0, [65, 66], [], none) := by
    have h := scan_encAll [⟨1, [65]⟩, ⟨1, [66]⟩] [] [] 0 [] [] (by decide) (by unfold fragShort; simp)
    simp at h
    rw [show (encAll [⟨1, [65]⟩, ⟨1, [66]⟩] : List Nat) =
      ([1, 1, 0, 0, 0, 65] ++ [1, 1, 0, 0, 0, 66] : List Nat) from by decide] at h
    unfold DecodeV2Data
    rw [h]
    exact by decide
  refine ⟨hreader, hflat, ?_⟩
  rw [hreader, hflat]
  decide

/-- C2 amended: when the reader delivers the entire stream in a single
read, `DecodeDataFromReader` computes exactly what `DecodeV2Data`
computes on those bytes — same exit code, stdout, stderr and error. -/
theorem DecodeDataFromReader_single (data : List Nat) :
    DecodeDataFromReader [data] = DecodeV2Data data := by
  unfold DecodeDataFromReader DecodeV2Data
  rw [readChunks]
  cases h : (scanPackets data ⟨0, 0, [], []⟩).2 <;> simp [h, readChunks]

/-! ## Device states and the watcher diff -/

inductive DeviceState where
  | StateDisconnected
  | StateOffline
  | StateOnline
  | StateUnauthorized
  | StateInvalid
deriving DecidableEq

structure DeviceStateChangedEvent where
  serial : String
  oldState : DeviceState
  newState : DeviceState
deriving DecidableEq

/-- Snapshot lookup: the state recorded for a serial, if present. -/
def lookupState (s : String) (m : List (String × DeviceState)) : Option DeviceState :=
  (m.find? (fun q => q.1 == s)).map Prod.snd

/-- A snapshot is a map: its serials are distinct. -/
def keysNodup (m : List (String × DeviceState)) : Prop := (m.map Prod.fst).Nodup

instance (m : List (String × DeviceState)) : Decidable (keysNodup m) := by
  unfold keysNodup; infer_instance

/-- Modelled from the spec: `calculateStateDiffs` (the device watcher's
diff of two snapshots) is not under src — only its tests are. Spec 4.5
diff rules: serial only in new emits (serial, Disconnected, new state);
serial only in old emits (serial, old state, Disconnected); serial in
both with different states emits (serial, old state, new state);
otherwise nothing. -/
def calculateStateDiffs (oldS newS : List (String × DeviceState)) : List DeviceStateChangedEvent :=
  (newS.filterMap (fun q =>
    match lookupState q.1 oldS with
    | some os => if os ≠ q.2 then some ⟨q.1, os, q.2⟩ else none
    | none => some ⟨q.1, DeviceState.StateDisconnected, q.2⟩)) ++
  (oldS.filterMap (fun q =>
    match lookupState q.1 newS with
    | some _ => none
    | none => some ⟨q.1, q.2, DeviceState.StateDisconnected⟩))

/-- The event set the spec's diff rules describe, as a predicate. -/
def diffEventSpec (oldS newS : List (String × DeviceState)) (ev : DeviceStateChangedEvent) : Prop :=
  (lookupState ev.serial oldS = none ∧ lookupState ev.serial newS = some ev.newState ∧
    ev.oldState = DeviceState.StateDisconnected) ∨
  (lookupState ev.serial newS = none ∧ lookupState ev.serial oldS = some ev.oldState ∧
    ev.newState = DeviceState.StateDisconnected) ∨
  (lookupState ev.serial oldS = some ev.oldState ∧ lookupState ev.serial newS = some ev.newState ∧
    ev.oldState ≠ ev.newState)

theorem lookupState_cons_pos (s : String) (v : DeviceState) (t : List (String × DeviceState)) :
    lookupState s ((s, v) :: t) = some v := by
  unfold lookupState
  rw [List.find?_cons_of_pos _ (by simp)]
  rfl

theorem lookupState_cons_neg (s k : String) (v : DeviceState) (t : List (String × DeviceState))
    (he : k ≠ s) :
    lookupState s ((k, v) :: t) = lookupState s t := by
  unfold lookupState
  rw [List.find?_cons_of_neg _ (by simp [he])]

theorem lookupState_some_iff (m : List (String × DeviceState)) (h : keysNodup m)
    (s : String) (st : DeviceState) :
    lookupState s m = some st ↔ (s, st) ∈ m := by
  induction m with
  | nil => simp [lookupState]
  | cons a t ih =>
      obtain ⟨k, v⟩ := a
      unfold keysNodup at h
      rw [List.map_cons, List.nodup_cons] at h
      obtain ⟨ha, ht⟩ := h
      by_cases he : k = s
      · subst he
        rw [lookupState_cons_pos]
        constructor
        · intro hb
          rw [Option.some_inj] at hb
          subst hb
          exact List.mem_cons_self _ _
        · intro hmem
          rcases List.mem_cons.mp hmem with hq | hq
          · rw [Prod.mk.injEq] at hq
            rw [hq.2]
          · exact absurd (List.mem_map_of_mem Prod.fst hq) ha
      · rw [lookupState_cons_neg _ _ _ _ he, ih ht]
        constructor
        · intro hb
          exact List.mem_cons_of_mem _ hb
        · intro hmem
          rcases List.mem_cons.mp hmem with hq | hq
          · rw [Prod.mk.injEq] at hq
            exact absurd hq.1.symm he
          · exact hq

theorem lookupState_none_iff (m : List (String × DeviceState)) (s : String) :
    lookupState s m = none ↔ s ∉ m.map Prod.fst := by
  induction m with
  | nil => simp [lookupState]
  | cons a t ih =>
      obtain ⟨k, v⟩ := a
      by_cases he : k = s
      · subst he
        rw [lookupState_cons_pos]
        simp
      · rw [lookupState_cons_neg _ _ _ _ he, ih]
        simp [Ne.symm he]

/-- The map applied to entries of the new snapshot. -/
def diffNewEntry (oldS : List (String × DeviceState)) (q : String × DeviceState) :
    Option DeviceStateChangedEvent :=
  match lookupState q.1 oldS with
  | some os => if os ≠ q.2 then some ⟨q.1, os, q.2⟩ else none
  | none => some ⟨q.1, DeviceState.StateDisconnected, q.2⟩

/-- The map applied to entries of the old snapshot. -/
def diffOldEntry (newS : List (String × DeviceState)) (q : String × DeviceState) :
    Option DeviceStateChangedEvent :=
  match lookupState q.1 newS with
  | some _ => none
  | none => some ⟨q.1, q.2, DeviceState.StateDisconnected⟩

theorem calculateStateDiffs_eq (oldS newS : List (String × DeviceState)) :
    calculateStateDiffs oldS newS =
      newS.filterMap (diffNewEntry oldS) ++ oldS.filterMap (diffOldEntry newS) := rfl

theorem diffNewEntry_shape (oldS : List (String × DeviceState)) (q : String × DeviceState)
    (ev : DeviceStateChangedEvent) (h : diffNewEntry oldS q = some ev) :
    q = (ev.serial, ev.newState) := by
  obtain ⟨qs, qv⟩ := q
  unfold diffNewEntry at h
  cases hcase : lookupState qs oldS with
  | some os =>
      simp only [hcase] at h
      by_cases hne : os ≠ qv
      · rw [if_pos hne, Option.some_inj] at h
        rw [← h]
      · rw [if_neg hne] at h
        simp at h
  | none =>
      simp only [hcase, Option.some_inj] at h
      rw [← h]

theorem diffOldEntry_shape (newS : List (String × DeviceState)) (q : String × DeviceState)
    (ev : DeviceStateChangedEvent) (h : diffOldEntry newS q = some ev) :
    q = (ev.serial, ev.oldState) ∧ lookupState ev.serial newS = none := by
  obtain ⟨qs, qv⟩ := q
  unfold diffOldEntry at h
  cases hcase : lookupState qs newS with
  | some os =>
      simp only [hcase] at h
      exact Option.noConfusion h
  | none =>
      simp only [hcase, Option.some_inj] at h
      rw [← h]
      exact ⟨rfl, hcase⟩

/-- The emitted events are exactly the ones the spec's diff rules
describe. -/
theorem mem_calculateStateDiffs (oldS newS : List (String × DeviceState))
    (ho : keysNodup oldS) (hn : keysNodup newS) (ev : DeviceStateChangedEvent) :
    ev ∈ calculateStateDiffs oldS newS ↔ diffEventSpec oldS newS ev := by
  obtain ⟨sv, ov, nv⟩ := ev
  rw [calculateStateDiffs_eq, List.mem_append, List.mem_filterMap, List.mem_filterMap]
  unfold diffEventSpec
  dsimp only
  constructor
  · rintro (⟨⟨qs, qv⟩, hq, hfq⟩ | ⟨⟨qs, qv⟩, hq, hfq⟩)
    · have hlq : lookupState qs newS = some qv := (lookupState_some_iff newS hn qs qv).mpr hq
      unfold diffNewEntry at hfq
      cases hcase : lookupState qs oldS with
      | some os =>
          simp only [hcase] at hfq
          by_cases hne : os ≠ qv
          · rw [if_pos hne, Option.some_inj, DeviceStateChangedEvent.mk.injEq] at hfq
            obtain ⟨h1, h2, h3⟩ := hfq
            subst h1; subst h2; subst h3
            exact Or.inr (Or.inr ⟨hcase, hlq, hne⟩)
          · rw [if_neg hne] at hfq
            simp at hfq
      | none =>
          simp only [hcase, Option.some_inj, DeviceStateChangedEvent.mk.injEq] at hfq
          obtain ⟨h1, h2, h3⟩ := hfq
          subst h1; subst h2; subst h3
          exact Or.inl ⟨hcase, hlq, rfl⟩
    · have hlq : lookupState qs oldS = some qv := (lookupState_some_iff oldS ho qs qv).mpr hq
      unfold diffOldEntry at hfq
      cases hcase : lookupState qs newS with
      | some os =>
          simp only [hcase] at hfq
          exact Option.noConfusion hfq
      | none =>
          simp only [hcase, Option.some_inj, DeviceStateChangedEvent.mk.injEq] at hfq
          obtain ⟨h1, h2, h3⟩ := hfq
          subst h1; subst h2; subst h3
          exact Or.inr (Or.inl ⟨hcase, hlq, rfl⟩)
  · rintro (⟨h1, h2, h3⟩ | ⟨h1, h2, h3⟩ | ⟨h1, h2, h3⟩)
    · left
      refine ⟨(sv, nv), (lookupState_some_iff newS hn sv nv).mp h2, ?_⟩
      unfold diffNewEntry
      simp only [h1]
      rw [h3]
    · right
      refine ⟨(sv, ov), (lookupState_some_iff oldS ho sv ov).mp h2, ?_⟩
      unfold diffOldEntry
      simp only [h1]
      rw [h3]
    · left
      refine ⟨(sv, nv), (lookupState_some_iff newS hn sv nv).mp h2, ?_⟩
      unfold diffNewEntry
      simp only [h1]
      rw [if_pos h3]

theorem calculateStateDiffs_nodup (oldS newS : List (String × DeviceState))
    (ho : keysNodup oldS) (hn : keysNodup newS) :
    (calculateStateDiffs oldS newS).Nodup := by
  rw [calculateStateDiffs_eq]
  have hnodupN : newS.Nodup := List.Nodup.of_map _ hn
  have hnodupO : oldS.Nodup := List.Nodup.of_map _ ho
  apply List.Nodup.append
  · exact List.Nodup.filterMap
      (fun q q' ev hev hev' => (diffNewEntry_shape oldS q ev hev).trans
        (diffNewEntry_shape oldS q' ev hev').symm) hnodupN
  · exact List.Nodup.filterMap
      (fun q q' ev hev hev' => ((diffOldEntry_shape newS q ev hev).1).trans
        ((diffOldEntry_shape newS q' ev hev').1).symm) hnodupO
  · intro ev hev1 hev2
    rw [List.mem_filterMap] at hev1 hev2
    obtain ⟨q1, hq1, hf1⟩ := hev1
    obtain ⟨q2, hq2, hf2⟩ := hev2
    have hs1 := diffNewEntry_shape oldS q1 ev hf1
    have hs2 := (diffOldEntry_shape newS q2 ev hf2).2
    have : lookupState ev.serial newS = some ev.newState := by
      apply (lookupState_some_iff newS hn _ _).mpr
      rw [← hs1]
      exact hq1
    rw [hs2] at this
    exact absurd this (by simp)

theorem calculateStateDiffs_self (S : List (String × DeviceState)) (h : keysNodup S) :
    calculateStateDiffs S S = [] := by
  rw [calculateStateDiffs_eq]
  have h1 : S.filterMap (diffNewEntry S) = [] := by
    rw [List.filterMap_eq_nil_iff]
    intro q hq
    obtain ⟨qs, qv⟩ := q
    have hl : lookupState qs S = some qv := (lookupState_some_iff S h qs qv).mpr hq
    unfold diffNewEntry
    simp only [hl]
    rw [if_neg (by simp)]
  have h2 : S.filterMap (diffOldEntry S) = [] := by
    rw [List.filterMap_eq_nil_iff]
    intro q hq
    obtain ⟨qs, qv⟩ := q
    have hl : lookupState qs S = some qv := (lookupState_some_iff S h qs qv).mpr hq
    unfold diffOldEntry
    simp only [hl]
  rw [h1, h2, List.append_nil]

/-- C4: the diff of two snapshots emits exactly the spec's three event
families and nothing else, each at most once; the diff of a snapshot
with itself is empty; and the spec's concrete add/remove/change example
comes out as stated, up to order. -/
theorem calculateStateDiffs_claim (oldS newS : List (String × DeviceState))
    (ho : keysNodup oldS) (hn : keysNodup newS) :
    (∀ ev, ev ∈ calculateStateDiffs oldS newS ↔ diffEventSpec oldS newS ev) ∧
    (calculateStateDiffs oldS newS).Nodup ∧
    (∀ S, keysNodup S → calculateStateDiffs S S = []) ∧
    (calculateStateDiffs
        [("1", DeviceState.StateOffline), ("2", DeviceState.StateOffline)]
        [("1", DeviceState.StateOnline), ("3", DeviceState.StateOffline)]).Perm
      [⟨"1", DeviceState.StateOffline, DeviceState.StateOnline⟩,
       ⟨"2", DeviceState.StateOffline, DeviceState.StateDisconnected⟩,
       ⟨"3", DeviceState.StateDisconnected, DeviceState.StateOffline⟩] := by
  refine ⟨mem_calculateStateDiffs oldS newS ho hn,
    calculateStateDiffs_nodup oldS newS ho hn,
    calculateStateDiffs_self, ?_⟩
  decide

/-- Witness for C4: the spec's concrete example, obtained from the claim
theorem at two concrete well-formed snapshots. -/
theorem calculateStateDiffs_claim_witness :
    (calculateStateDiffs
        [("1", DeviceState.StateOffline), ("2", DeviceState.StateOffline)]
        [("1", DeviceState.StateOnline), ("3", DeviceState.StateOffline)]).Perm
      [⟨"1", DeviceState.StateOffline, DeviceState.StateOnline⟩,
       ⟨"2", DeviceState.StateOffline, DeviceState.StateDisconnected⟩,
       ⟨"3", DeviceState.StateDisconnected, DeviceState.StateOffline⟩] :=
  (calculateStateDiffs_claim
    [("1", DeviceState.StateOffline), ("2", DeviceState.StateOffline)]
    [("1", DeviceState.StateOnline), ("3", DeviceState.StateOffline)]
    (by decide) (by decide)).2.2.2

/-! ## Substring search and the device-not-found pattern

Go strings are embedded as `List Char`. The three character sequences
below are the literal pieces of the pattern
`device( '.*')? not found` from the `wire` source: the plain
alternative, the opening `device '`, and the closing `' not found`. -/

/-- The characters of `device not found`. -/
def dnfPlain : List Char :=
  ['d', 'e', 'v', 'i', 'c', 'e', ' ', 'n', 'o', 't', ' ', 'f', 'o', 'u', 'n', 'd']

/-- The characters of `device '` — the part before the `.*`. -/
def dnfOpen : List Char := ['d', 'e', 'v', 'i', 'c', 'e', ' ', '\'']

/-- The characters of `' not found` — the part after the `.*`. -/
def dnfClose : List Char := ['\'', ' ', 'n', 'o', 't', ' ', 'f', 'o', 'u', 'n', 'd']

/-- Whether `pat` is an initial segment of `l`. -/
def leadsWith : List Char → List Char → Bool
  | [], _ => true
  | _ :: _, [] => false
  | p :: ps, c :: cs => p == c && leadsWith ps cs

theorem leadsWith_iff (pat l : List Char) :
    leadsWith pat l = true ↔ ∃ v, l = pat ++ v := by
  induction pat generalizing l with
  | nil => simp [leadsWith]
  | cons p ps ih =>
      cases l with
      | nil =>
          simp only [leadsWith, List.cons_append]
          constructor
          · intro h; exact Bool.noConfusion h
          · rintro ⟨v, hv⟩; exact List.noConfusion hv
      | cons c cs =>
          simp only [leadsWith, Bool.and_eq_true, beq_iff_eq, List.cons_append]
          constructor
          · rintro ⟨h1, h2⟩
            subst h1
            obtain ⟨v, hv⟩ := (ih cs).mp h2
            exact ⟨v, by rw [hv]⟩
          · rintro ⟨v, hv⟩
            injection hv with hv1 hv2
            exact ⟨hv1.symm, (ih cs).mpr ⟨v, hv2⟩⟩

/-- Unanchored substring search, as `strings.Contains`. -/
def containsSubstr (pat : List Char) : List Char → Bool
  | [] => leadsWith pat []
  | l@(_ :: rest) => leadsWith pat l || containsSubstr pat rest

theorem containsSubstr_iff (pat s : List Char) :
    containsSubstr pat s = true ↔ ∃ u v, s = u ++ pat ++ v := by
  induction s with
  | nil =>
      rw [show containsSubstr pat [] = leadsWith pat [] from rfl, leadsWith_iff]
      constructor
      · rintro ⟨v, hv⟩
        exact ⟨[], v, by simpa using hv⟩
      · rintro ⟨u, v, hv⟩
        have h0 := congrArg List.length hv
        simp only [List.length_nil, List.length_append] at h0
        have hu : u.length = 0 := by omega
        have hV : v.length = 0 := by omega
        rw [List.eq_nil_of_length_eq_zero hu, List.eq_nil_of_length_eq_zero hV] at hv
        exact ⟨[], by simpa using hv⟩
  | cons c rest ih =>
      rw [show containsSubstr pat (c :: rest) =
        (leadsWith pat (c :: rest) || containsSubstr pat rest) from rfl]
      simp only [Bool.or_eq_true, leadsWith_iff, ih]
      constructor
      · rintro (⟨v, hv⟩ | ⟨u, v, hv⟩)
        · exact ⟨[], v, by simpa using hv⟩
        · exact ⟨c :: u, v, by rw [hv]; simp⟩
      · rintro ⟨u, v, hv⟩
        cases u with
        | nil => exact Or.inl ⟨v, by simpa using hv⟩
        | cons x u =>
            right
            rw [List.cons_append, List.cons_append] at hv
            injection hv with hv1 hv2
            exact ⟨u, v, hv2⟩

/-- Scan for the closing `' not found` with only non-newline characters
before it, as `'.*'` behaves in the Go pattern (RE2 `.` does not match a
newline). -/
def quoteTail : List Char → Bool
  | [] => false
  | l@(c :: rest) => leadsWith dnfClose l || (c != '\n' && quoteTail rest)

theorem quoteTail_iff (l : List Char) :
    quoteTail l = true ↔ ∃ m v, l = m ++ dnfClose ++ v ∧ '\n' ∉ m := by
  induction l with
  | nil =>
      constructor
      · intro h; exact Bool.noConfusion h
      · rintro ⟨m, v, hv, _⟩
        have h0 := congrArg List.length hv
        simp only [List.length_nil, List.length_append] at h0
        have : dnfClose.length = 11 := by decide
        omega
  | cons c rest ih =>
      rw [show quoteTail (c :: rest) =
        (leadsWith dnfClose (c :: rest) || (c != '\n' && quoteTail rest)) from rfl]
      simp only [Bool.or_eq_true, Bool.and_eq_true, bne_iff_ne, leadsWith_iff, ih]
      constructor
      · rintro (⟨v, hv⟩ | ⟨hc, m, v, hv, hm⟩)
        · exact ⟨[], v, by simpa using hv, by simp⟩
        · refine ⟨c :: m, v, by rw [hv]; simp, ?_⟩
          intro hmem
          rcases List.mem_cons.mp hmem with h | h
          · exact hc h.symm
          · exact hm h
      · rintro ⟨m, v, hv, hm⟩
        cases m with
        | nil => exact Or.inl ⟨v, by simpa using hv⟩
        | cons x m =>
            right
            rw [List.cons_append, List.cons_append] at hv
            injection hv with hv1 hv2
            subst hv1
            refine ⟨fun h => hm (by rw [h]; exact List.mem_cons_self _ _), m, v, hv2, ?_⟩
            intro h
            exact hm (List.mem_cons_of_mem _ h)

/-- Scan for a position where the quoted alternative
`device '` + `.*` + `' not found` matches. -/
def scanQuote : List Char → Bool
  | [] => false
  | l@(_ :: rest) => (leadsWith dnfOpen l && quoteTail (l.drop 8)) || scanQuote rest

theorem scanQuote_iff (s : List Char) :
    scanQuote s = true ↔ ∃ u m v, s = u ++ dnfOpen ++ m ++ dnfClose ++ v ∧ '\n' ∉ m := by
  induction s with
  | nil =>
      constructor
      · intro h; exact Bool.noConfusion h
      · rintro ⟨u, m, v, hv, _⟩
        have h0 := congrArg List.length hv
        simp only [List.length_nil, List.length_append] at h0
        have : dnfOpen.length = 8 := by decide
        omega
  | cons c rest ih =>
      rw [show scanQuote (c :: rest) =
        ((leadsWith dnfOpen (c :: rest) && quoteTail ((c :: rest).drop 8)) || scanQuote rest) from rfl]
      simp only [Bool.or_eq_true, Bool.and_eq_true, leadsWith_iff, ih]
      constructor
      · rintro (⟨⟨w, hw⟩, hq⟩ | ⟨u, m, v, hv, hm⟩)
        · have hdrop : (c :: rest).drop 8 = w := by
            rw [hw, show (8 : Nat) = dnfOpen.length + 0 from by decide, drop_append_len]
            rfl
          rw [hdrop] at hq
          obtain ⟨m, v, hmv, hm⟩ := (quoteTail_iff w).mp hq
          refine ⟨[], m, v, ?_, hm⟩
          rw [hw, hmv]
          simp [List.append_assoc]
        · exact ⟨c :: u, m, v, by rw [hv]; simp, hm⟩
      · rintro ⟨u, m, v, hv, hm⟩
        cases u with
        | nil =>
            left
            have hw : c :: rest = dnfOpen ++ (m ++ dnfClose ++ v) := by
              rw [show ([] ++ dnfOpen ++ m ++ dnfClose ++ v : List Char) =
                dnfOpen ++ (m ++ dnfClose ++ v) from by simp [List.append_assoc]] at hv
              exact hv
            refine ⟨⟨m ++ dnfClose ++ v, hw⟩, ?_⟩
            have hdrop : (c :: rest).drop 8 = m ++ dnfClose ++ v := by
              rw [hw, show (8 : Nat) = dnfOpen.length + 0 from by decide, drop_append_len]
              rfl
            rw [hdrop]
            exact (quoteTail_iff _).mpr ⟨m, v, rfl, hm⟩
        | cons x u =>
            right
            rw [List.cons_append, List.cons_append, List.cons_append, List.cons_append] at hv
            injection hv with hv1 hv2
            refine ⟨u, m, v, ?_, hm⟩
            simpa [List.append_assoc] using hv2

/-- Go's `deviceNotFoundMessagePattern.MatchString` for the pattern
`device( '.*')? not found`: either alternative matches somewhere. -/
def matchesDeviceNotFound (s : List Char) : Bool :=
  containsSubstr dnfPlain s || scanQuote s

/-- The claim's reading of the pattern: the message contains
`device not found`, or contains `device '` + any newline-free run +
`' not found`. -/
def deviceNotFoundSpec (s : List Char) : Prop :=
  (∃ u v, s = u ++ dnfPlain ++ v) ∨
  (∃ u m v, s = u ++ dnfOpen ++ m ++ dnfClose ++ v ∧ '\n' ∉ m)

theorem matchesDeviceNotFound_iff (s : List Char) :
    matchesDeviceNotFound s = true ↔ deviceNotFoundSpec s := by
  unfold matchesDeviceNotFound deviceNotFoundSpec
  rw [Bool.or_eq_true, containsSubstr_iff, scanQuote_iff]

/-! ## Error values and `adbServerError` (wire source) -/

inductive ErrCode where
  | AssertionError
  | ParseError
  | NetworkError
  | ConnectionResetError
  | ServerNotAvailable
  | AdbError
  | DeviceNotFound
deriving DecidableEq

structure ErrorResponseDetails where
  request : List Char
  serverMsg : List Char
deriving DecidableEq

structure Err where
  code : ErrCode
  message : List Char
  details : ErrorResponseDetails
deriving DecidableEq

/-- `adbServerError` from the wire source: format the message, promote
the code to DeviceNotFound when the pattern matches the server message,
and keep the raw request and server message in the details. -/
def adbServerError (request serverMsg : List Char) : Err :=
  { code := if matchesDeviceNotFound serverMsg then ErrCode.DeviceNotFound else ErrCode.AdbError
    message :=
      if request = [] then "server error: ".toList ++ serverMsg
      else "server error for ".toList ++ request ++ " request: ".toList ++ serverMsg
    details := ⟨request, serverMsg⟩ }

/-- C5: the FAIL-body error has code DeviceNotFound exactly when the
message matches `device( '.*')? not found`, has code AdbError in every
other case, and carries the raw server message (and request) verbatim in
its details payload. -/
theorem adbServerError_classification (request serverMsg : List Char) :
    ((adbServerError request serverMsg).code = ErrCode.DeviceNotFound ↔
      deviceNotFoundSpec serverMsg) ∧
    ((adbServerError request serverMsg).code = ErrCode.DeviceNotFound ∨
      (adbServerError request serverMsg).code = ErrCode.AdbError) ∧
    (adbServerError request serverMsg).details.serverMsg = serverMsg ∧
    (adbServerError request serverMsg).details.request = request := by
  unfold adbServerError
  dsimp only
  cases h : matchesDeviceNotFound serverMsg with
  | true =>
      rw [if_pos rfl]
      exact ⟨⟨fun _ => (matchesDeviceNotFound_iff serverMsg).mp h, fun _ => rfl⟩,
        Or.inl rfl, rfl, rfl⟩
  | false =>
      rw [if_neg (by simp)]
      refine ⟨⟨fun hc => absurd hc (by simp), fun hs => ?_⟩, Or.inr rfl, rfl, rfl⟩
      rw [← matchesDeviceNotFound_iff] at hs
      rw [h] at hs
      exact Bool.noConfusion hs

/-! ## Client-side error values -/

/-- An error value as the Device facade sees it: an opaque collaborator
error carrying its `Error()` text, an `errors.Errorf` value with a code
and message, or a `wrapClientError` wrapper adding the operation name
and the device descriptor. -/
inductive CErr where
  | go (text : List Char)
  | mk (code : ErrCode) (msg : List Char)
  | client (op : List Char) (descr : List Char) (cause : CErr)
deriving DecidableEq

/-- The `Error()` text of an error value. The wrapper case is modelled
from the spec (context prepended); the claims only ever inspect the text
of unwrapped collaborator errors. -/
def errText : CErr → List Char
  | CErr.go t => t
  | CErr.mk _ m => m
  | CErr.client op descr cause => op ++ descr ++ errText cause

/-- Modelled from the spec: `wrapClientError` (internal errors package,
not under src) wraps a non-nil failure with the operation name and the
device descriptor for context; nil stays nil. -/
def wrapClientError (err : Option CErr) (descr op : List Char) : Option CErr :=
  err.map (fun e => CErr.client op descr e)

/-- Whether an error value is a `wrapClientError` wrapper. -/
def isClientWrap : CErr → Bool
  | CErr.client _ _ _ => true
  | _ => false

/-- An error wrapped with some operation name and this device
descriptor. -/
def wrappedFor (descr : List Char) (e : CErr) : Prop :=
  ∃ op cause, e = CErr.client op descr cause

/-! ## Command-line preparation (`prepareCommandLine`, source lines 293-311) -/

/-- Modelled from the spec: the ASCII whitespace class the quoting rule
speaks about. -/
def isSpaceChar (c : Char) : Bool :=
  c == ' ' || c == '\t' || c == '\n' || c == '\r' || c == '\x0b' || c == '\x0c'

/-- Modelled from the spec: `isBlank` (helper not under src) — an empty
or all-whitespace command, rejected as "command cannot be empty". -/
def isBlank (s : List Char) : Bool := s.all isSpaceChar

/-- Modelled from the spec: `containsWhitespace` (helper not under
src). -/
def containsWhitespace (s : List Char) : Bool := s.any isSpaceChar

/-- The double-quote character. -/
def dquote : Char := '"'

/-- An argument as emitted: wrapped in double quotes when it contains
whitespace. -/
def quoteArg (a : List Char) : List Char :=
  if containsWhitespace a then dquote :: (a ++ [dquote]) else a

/-- The first argument containing a double quote, with its index,
scanning left to right starting at index `i` — the loop order of the
source. -/
def findQuoteArg : List (List Char) → Nat → Option (Nat × List Char)
  | [], _ => none
  | a :: rest, i => if dquote ∈ a then some (i, a) else findQuoteArg rest (i + 1)

/-- `strings.Join(args, " ")`. -/
def joinSpace : List (List Char) → List Char
  | [] => []
  | [a] => a
  | a :: rest => a ++ ' ' :: joinSpace rest

/-- The ParseError message naming the offending argument's index. -/
def quoteErrMsg (i : Nat) (a : List Char) : List Char :=
  "arg at index ".toList ++ (Nat.repr i).toList ++
    " contains an invalid double quote: ".toList ++ a

/-- `prepareCommandLine`: reject a blank command, reject the first
argument containing a double quote, double-quote whitespace-bearing
arguments, and join everything with single spaces. -/
def prepareCommandLine (cmd : List Char) (args : List (List Char)) : Except CErr (List Char) :=
  if isBlank cmd then
    Except.error (CErr.mk ErrCode.AssertionError ("command cannot be empty".toList))
  else
    match findQuoteArg args 0 with
    | some (i, a) => Except.error (CErr.mk ErrCode.ParseError (quoteErrMsg i a))
    | none =>
        if args.isEmpty then Except.ok cmd
        else Except.ok (cmd ++ ' ' :: joinSpace (args.map quoteArg))

theorem findQuoteArg_none (args : List (List Char)) (k : Nat)
    (h : ∀ a ∈ args, dquote ∉ a) : findQuoteArg args k = none := by
  induction args generalizing k with
  | nil => rfl
  | cons a rest ih =>
      rw [show findQuoteArg (a :: rest) k =
        (if dquote ∈ a then some (k, a) else findQuoteArg rest (k + 1)) from rfl]
      rw [if_neg (h a (List.mem_cons_self _ _))]
      exact ih (k + 1) (fun x hx => h x (List.mem_cons_of_mem _ hx))

theorem findQuoteArg_first (args : List (List Char)) (k i : Nat) (h : i < args.length)
    (hq : dquote ∈ args.get ⟨i, h⟩)
    (hbefore : ∀ j (hj : j < i), dquote ∉ args.get ⟨j, Nat.lt_trans hj h⟩) :
    findQuoteArg args k = some (k + i, args.get ⟨i, h⟩) := by
  induction args generalizing k i with
  | nil => exact absurd h (by simp)
  | cons a rest ih =>
      cases i with
      | zero =>
          rw [show findQuoteArg (a :: rest) k =
            (if dquote ∈ a then some (k, a) else findQuoteArg rest (k + 1)) from rfl]
          rw [if_pos (by simpa using hq)]
          simp
      | succ i0 =>
          have ha : dquote ∉ a := by
            have hb := hbefore 0 (Nat.succ_pos i0)
            simpa using hb
          rw [show findQuoteArg (a :: rest) k =
            (if dquote ∈ a then some (k, a) else findQuoteArg rest (k + 1)) from rfl]
          rw [if_neg ha]
          have hi : i0 < rest.length := by
            have := h
            simp only [List.length_cons] at this
            omega
          have hq0 : dquote ∈ rest.get ⟨i0, hi⟩ := by simpa using hq
          have hb0 : ∀ j (hj : j < i0), dquote ∉ rest.get ⟨j, Nat.lt_trans hj hi⟩ := by
            intro j hj
            have hb := hbefore (j + 1) (by omega)
            simpa using hb
          have harith : k + (i0 + 1) = k + 1 + i0 := by omega
          rw [harith]
          simp only [List.get_cons_succ]
          exact ih (k + 1) i0 hi hq0 hb0

/-- C8: a blank command is rejected with an AssertionError; otherwise
the first argument containing a double quote is rejected with a
ParseError naming its index; otherwise the result is the command
followed by the arguments joined with single spaces, with every
whitespace-bearing argument wrapped in double quotes. -/
theorem prepareCommandLine_spec (cmd : List Char) (args : List (List Char)) :
    (isBlank cmd = true →
      prepareCommandLine cmd args =
        Except.error (CErr.mk ErrCode.AssertionError ("command cannot be empty".toList))) ∧
    (isBlank cmd = false → ∀ i (h : i < args.length), dquote ∈ args.get ⟨i, h⟩ →
      (∀ j (hj : j < i), dquote ∉ args.get ⟨j, Nat.lt_trans hj h⟩) →
      prepareCommandLine cmd args =
        Except.error (CErr.mk ErrCode.ParseError (quoteErrMsg i (args.get ⟨i, h⟩)))) ∧
    (isBlank cmd = false → (∀ a ∈ args, dquote ∉ a) →
      prepareCommandLine cmd args =
        Except.ok (if args.isEmpty then cmd else cmd ++ ' ' :: joinSpace (args.map quoteArg))) := by
  refine ⟨?_, ?_, ?_⟩
  · intro hb
    unfold prepareCommandLine
    rw [if_pos hb]
  · intro hb i h hq hbefore
    unfold prepareCommandLine
    rw [if_neg (by simp [hb])]
    have hf := findQuoteArg_first args 0 i h hq hbefore
    rw [Nat.zero_add] at hf
    rw [hf]
  · intro hb hnq
    unfold prepareCommandLine
    rw [if_neg (by simp [hb]), findQuoteArg_none args 0 hnq]
    by_cases he : args.isEmpty = true <;> simp [he]

/-- Witness for C8: one run per branch — a quote-free command line with
a whitespace-bearing argument, a command line whose second argument
holds a double quote, and a blank command. -/
theorem prepareCommandLine_spec_witness :
    prepareCommandLine ['l', 's'] [['-', 'a'], ['o', ' ', 'k']] =
      Except.ok ['l', 's', ' ', '-', 'a', ' ', '"', 'o', ' ', 'k', '"'] ∧
    prepareCommandLine ['l', 's'] [['-', 'a'], ['a', '"', 'b']] =
      Except.error (CErr.mk ErrCode.ParseError (quoteErrMsg 1 ['a', '"', 'b'])) ∧
    prepareCommandLine [' '] [['x']] =
      Except.error (CErr.mk ErrCode.AssertionError ("command cannot be empty".toList)) := by
  refine ⟨?_, ?_, ?_⟩
  · have h := (prepareCommandLine_spec ['l', 's'] [['-', 'a'], ['o', ' ', 'k']]).2.2
      (by decide) (by decide)
    exact h.trans (by rfl)
  · have h := (prepareCommandLine_spec ['l', 's'] [['-', 'a'], ['a', '"', 'b']]).2.1
      (by decide) 1 (by decide) (by decide) (by decide)
    exact h.trans (by rfl)
  · exact (prepareCommandLine_spec [' '] [['x']]).1 (by decide)

/-! ## `Device.State` (source lines 49-59) -/

/-- Modelled from the spec: `parseDeviceState` (not under src). Spec 4.5
text tokens: `offline`, `device`, `unauthorized`; anything else is
Invalid. -/
def parseDeviceState (s : List Char) : DeviceState :=
  if s = "offline".toList then DeviceState.StateOffline
  else if s = "device".toList then DeviceState.StateOnline
  else if s = "unauthorized".toList then DeviceState.StateUnauthorized
  else DeviceState.StateInvalid

/-- `Device.State` as a function of the get-state attribute outcome: a
failure whose text contains `unauthorized` becomes the success value
StateUnauthorized; any other failure is StateInvalid with the error
wrapped; a success is parsed. -/
def deviceStateQuery (descr : List Char) (attrRes : Except CErr (List Char)) :
    DeviceState × Option CErr :=
  match attrRes with
  | Except.error e =>
      if containsSubstr ("unauthorized".toList) (errText e) then
        (DeviceState.StateUnauthorized, none)
      else
        (DeviceState.StateInvalid, wrapClientError (some e) descr ("State".toList))
  | Except.ok attr => (parseDeviceState attr, none)

/-- C7: when the get-state query fails with an error whose text contains
the substring `unauthorized`, State returns the success value
StateUnauthorized with no error; when it fails with any other error,
State returns StateInvalid together with the error wrapped with the
operation name and the device descriptor. -/
theorem deviceStateQuery_unauthorized (descr : List Char) (e : CErr) :
    ((∃ u v, errText e = u ++ "unauthorized".toList ++ v) →
      deviceStateQuery descr (Except.error e) = (DeviceState.StateUnauthorized, none)) ∧
    ((¬ ∃ u v, errText e = u ++ "unauthorized".toList ++ v) →
      deviceStateQuery descr (Except.error e) =
        (DeviceState.StateInvalid, some (CErr.client ("State".toList) descr e))) := by
  constructor
  · intro hex
    simp only [deviceStateQuery]
    rw [if_pos ((containsSubstr_iff _ _).mpr hex)]
  · intro hnex
    simp only [deviceStateQuery]
    rw [if_neg (fun hc => hnex ((containsSubstr_iff _ _).mp hc))]
    rfl

/-- Witness for C7: a raw error reading `device unauthorized` yields
StateUnauthorized with no error; a raw error reading `boom` yields
StateInvalid with the wrapped error. -/
theorem deviceStateQuery_unauthorized_witness :
    deviceStateQuery ['d'] (Except.error (CErr.go ("device unauthorized".toList))) =
      (DeviceState.StateUnauthorized, none) ∧
    deviceStateQuery ['d'] (Except.error (CErr.go ("boom".toList))) =
      (DeviceState.StateInvalid,
        some (CErr.client ("State".toList) ['d'] (CErr.go ("boom".toList)))) := by
  constructor
  · exact (deviceStateQuery_unauthorized ['d'] (CErr.go ("device unauthorized".toList))).1
      ⟨"device ".toList, [], by decide⟩
  · refine (deviceStateQuery_unauthorized ['d'] (CErr.go ("boom".toList))).2 (fun hex => ?_)
    have h2 : containsSubstr ("unauthorized".toList) (errText (CErr.go ("boom".toList))) = true :=
      (containsSubstr_iff _ _).mpr hex
    exact absurd h2 (by decide)

/-! ## The Device facade (source lines 39-239)

Each public operation is embedded as a function of the outcomes of the
collaborator calls it makes — one `World` value is one run. Return
values the claims do not depend on are elided to the serial/response
text or `Unit`. -/

structure World where
  attrRes : Except CErr (List Char)
  listRes : Except CErr (List (List Char))
  dialErr : Option CErr
  sendErr : Option CErr
  statusErr : Option CErr
  readEofRes : Except CErr (List Char)
  v2Exit : Int
  v2Err : Option CErr
  roundTripRes : Except CErr (List Char)
  syncErr : Option CErr
  listDirErr : Option CErr
  statErr : Option CErr
  openReadErr : Option CErr
  openWriteErr : Option CErr

namespace Device

/-- `Serial`: get-serialno, failure wrapped. -/
def Serial (descr : List Char) (w : World) : Except CErr (List Char) :=
  match w.attrRes with
  | Except.error e => Except.error (CErr.client ("Serial".toList) descr e)
  | Except.ok v => Except.ok v

/-- `DevicePath`: get-devpath, failure wrapped. -/
def DevicePath (descr : List Char) (w : World) : Except CErr (List Char) :=
  match w.attrRes with
  | Except.error e => Except.error (CErr.client ("DevicePath".toList) descr e)
  | Except.ok v => Except.ok v

/-- `State`: the get-state query with the unauthorized exception. -/
def State (descr : List Char) (w : World) : DeviceState × Option CErr :=
  deviceStateQuery descr w.attrRes

/-- `DeviceInfo`: serial via Serial, then the device list, then search
by serial; every failure wrapped. -/
def DeviceInfo (descr : List Char) (w : World) : Except CErr (List Char) :=
  match Serial descr w with
  | Except.error e => Except.error (CErr.client ("GetDeviceInfo(GetSerial)".toList) descr e)
  | Except.ok serial =>
    match w.listRes with
    | Except.error e => Except.error (CErr.client ("DeviceInfo(ListDevices)".toList) descr e)
    | Except.ok devices =>
        if serial ∈ devices then Except.ok serial
        else Except.error (CErr.client ("DeviceInfo".toList) descr
          (CErr.mk ErrCode.DeviceNotFound
            ("device list doesn't contain serial ".toList ++ serial)))

/-- `RunCommand`: prepare, dial, send, read status, read to EOF; every
failure wrapped under RunCommand. -/
def RunCommand (descr cmd : List Char) (args : List (List Char)) (w : World) :
    Except CErr (List Char) :=
  match prepareCommandLine cmd args with
  | Except.error e => Except.error (CErr.client ("RunCommand".toList) descr e)
  | Except.ok _ =>
    match w.dialErr with
    | some e => Except.error (CErr.client ("RunCommand".toList) descr e)
    | none =>
      match w.sendErr with
      | some e => Except.error (CErr.client ("RunCommand".toList) descr e)
      | none =>
        match w.statusErr with
        | some e => Except.error (CErr.client ("RunCommand".toList) descr e)
        | none =>
          match w.readEofRes with
          | Except.error e => Except.error (CErr.client ("RunCommand".toList) descr e)
          | Except.ok resp => Except.ok resp

/-- `RunCommandV2WithStd`: early failures wrapped (under the name
RunCommand, as in the source); the final `ReadUntilEofV2WithStd`
outcome is returned as is — source line 171 has no `wrapClientError`. -/
def RunCommandV2WithStd (descr cmd : List Char) (args : List (List Char)) (w : World) :
    Int × Option CErr :=
  match prepareCommandLine cmd args with
  | Except.error e => (-1, some (CErr.client ("RunCommand".toList) descr e))
  | Except.ok _ =>
    match w.dialErr with
    | some e => (-1, some (CErr.client ("RunCommand".toList) descr e))
    | none =>
      match w.sendErr with
      | some e => (-1, some (CErr.client ("RunCommand".toList) descr e))
      | none =>
        match w.statusErr with
        | some e => (-1, some (CErr.client ("RunCommand".toList) descr e))
        | none => (w.v2Exit, w.v2Err)

/-- `RunCommandV2`: delegates to `RunCommandV2WithStd` over fresh
buffers and returns the exit code and error unchanged (the captured
buffer contents are elided). -/
def RunCommandV2 (descr cmd : List Char) (args : List (List Char)) (w : World) :
    Int × Option CErr :=
  RunCommandV2WithStd descr cmd args w

/-- `Remount`: dial, then one round trip; failures wrapped. -/
def Remount (descr : List Char) (w : World) : Except CErr (List Char) :=
  match w.dialErr with
  | some e => Except.error (CErr.client ("Remount".toList) descr e)
  | none =>
    match w.roundTripRes with
    | Except.error e => Except.error (CErr.client ("Remount".toList) descr e)
    | Except.ok resp => Except.ok resp

/-- `ListDirEntries`: sync connection, then the LIST request; failures
wrapped with the path-bearing operation name. -/
def ListDirEntries (descr path : List Char) (w : World) : Except CErr Unit :=
  match w.syncErr with
  | some e =>
      Except.error (CErr.client ("ListDirEntries(".toList ++ path ++ ")".toList) descr e)
  | none =>
    match w.listDirErr with
    | some e =>
        Except.error (CErr.client ("ListDirEntries(".toList ++ path ++ ")".toList) descr e)
    | none => Except.ok ()

/-- `Stat`: sync connection, then the STAT request; failures wrapped. -/
def Stat (descr path : List Char) (w : World) : Except CErr Unit :=
  match w.syncErr with
  | some e => Except.error (CErr.client ("Stat(".toList ++ path ++ ")".toList) descr e)
  | none =>
    match w.statErr with
    | some e => Except.error (CErr.client ("Stat(".toList ++ path ++ ")".toList) descr e)
    | none => Except.ok ()

/-- `OpenRead`: sync connection, then RECV; failures wrapped. -/
def OpenRead (descr path : List Char) (w : World) : Except CErr Unit :=
  match w.syncErr with
  | some e => Except.error (CErr.client ("OpenRead(".toList ++ path ++ ")".toList) descr e)
  | none =>
    match w.openReadErr with
    | some e => Except.error (CErr.client ("OpenRead(".toList ++ path ++ ")".toList) descr e)
    | none => Except.ok ()

/-- `OpenWrite`: sync connection, then SEND; failures wrapped. -/
def OpenWrite (descr path : List Char) (w : World) : Except CErr Unit :=
  match w.syncErr with
  | some e => Except.error (CErr.client ("OpenWrite(".toList ++ path ++ ")".toList) descr e)
  | none =>
    match w.openWriteErr with
    | some e => Except.error (CErr.client ("OpenWrite(".toList ++ path ++ ")".toList) descr e)
    | none => Except.ok ()

end Device

/-- A run in which dial, send and status succeed and the v2 stream read
fails with an opaque collaborator error. -/
def wOkButV2 : World :=
  ⟨Except.ok [], Except.ok [], none, none, none, Except.ok [], 0,
    some (CErr.go ("boom".toList)), Except.ok [], none, none, none, none, none⟩

/-- C9 counterexample: on a run where every early step succeeds and the
v2 stream read fails, `RunCommandV2WithStd` hands the collaborator's
error back exactly as produced — it is not a client wrapper, so it
carries no operation name and no device descriptor. -/
theorem RunCommandV2WithStd_unwrapped :
    Device.RunCommandV2WithStd ("serial-1".toList) ("ls".toList) [] wOkButV2 =
      (0, some (CErr.go ("boom".toList))) ∧
    isClientWrap (CErr.go ("boom".toList)) = false :=
  ⟨rfl, rfl⟩

/-- C9 amended: every public operation of the claim's list wraps each of
its failures with an operation name and the device descriptor — except
the v2 shell path: `RunCommandV2WithStd` wraps its early failures (under
the name RunCommand, as the source does) but returns the stream-read
error exactly as the collaborator produced it, and `RunCommandV2`
propagates that result unchanged. -/
theorem device_errors_wrapped (descr cmd path : List Char) (args : List (List Char)) (w : World) :
    (∀ e, Device.Serial descr w = Except.error e → wrappedFor descr e) ∧
    (∀ e, Device.DevicePath descr w = Except.error e → wrappedFor descr e) ∧
    (∀ e, (Device.State descr w).2 = some e → wrappedFor descr e) ∧
    (∀ e, Device.DeviceInfo descr w = Except.error e → wrappedFor descr e) ∧
    (∀ e, Device.RunCommand descr cmd args w = Except.error e → wrappedFor descr e) ∧
    (∀ e, Device.Remount descr w = Except.error e → wrappedFor descr e) ∧
    (∀ e, Device.ListDirEntries descr path w = Except.error e → wrappedFor descr e) ∧
    (∀ e, Device.Stat descr path w = Except.error e → wrappedFor descr e) ∧
    (∀ e, Device.OpenRead descr path w = Except.error e → wrappedFor descr e) ∧
    (∀ e, Device.OpenWrite descr path w = Except.error e → wrappedFor descr e) ∧
    ((Device.RunCommandV2WithStd descr cmd args w).2 = w.v2Err ∨
      ∃ e, (Device.RunCommandV2WithStd descr cmd args w).2 = some e ∧ wrappedFor descr e) ∧
    Device.RunCommandV2 descr cmd args w = Device.RunCommandV2WithStd descr cmd args w := by
  refine ⟨?_, ?_, ?_, ?_, ?_, ?_, ?_, ?_, ?_, ?_, ?_, rfl⟩
  · intro e he
    unfold Device.Serial at he
    cases hc : w.attrRes with
    | error e0 =>
        simp only [hc] at he
        injection he with h
        exact ⟨_, _, h.symm⟩
    | ok v =>
        simp only [hc] at he
        exact Except.noConfusion he
  · intro e he
    unfold Device.DevicePath at he
    cases hc : w.attrRes with
    | error e0 =>
        simp only [hc] at he
        injection he with h
        exact ⟨_, _, h.symm⟩
    | ok v =>
        simp only [hc] at he
        exact Except.noConfusion he
  · intro e he
    unfold Device.State deviceStateQuery at he
    cases hc : w.attrRes with
    | error e0 =>
        simp only [hc] at he
        by_cases hu : containsSubstr ("unauthorized".toList) (errText e0) = true
        · rw [if_pos hu] at he
          exact absurd he (by simp)
        · rw [if_neg hu] at he
          rw [show (DeviceState.StateInvalid,
            wrapClientError (some e0) descr ("State".toList)).2 =
            some (CErr.client ("State".toList) descr e0) from rfl] at he
          rw [Option.some_inj] at he
          exact ⟨_, _, he.symm⟩
    | ok v =>
        simp only [hc] at he
        exact absurd he (by simp)
  · intro e he
    unfold Device.DeviceInfo Device.Serial at he
    cases hc : w.attrRes with
    | error e0 =>
        simp only [hc] at he
        injection he with h
        exact ⟨_, _, h.symm⟩
    | ok v =>
        simp only [hc] at he
        cases hl : w.listRes with
        | error e0 =>
            simp only [hl] at he
            injection he with h
            exact ⟨_, _, h.symm⟩
        | ok devices =>
            simp only [hl] at he
            by_cases hm : v ∈ devices
            · rw [if_pos hm] at he
              exact Except.noConfusion he
            · rw [if_neg hm] at he
              injection he with h
              exact ⟨_, _, h.symm⟩
  · intro e he
    unfold Device.RunCommand at he
    cases hp : prepareCommandLine cmd args with
    | error e0 =>
        simp only [hp] at he
        injection he with h
        exact ⟨_, _, h.symm⟩
    | ok cl =>
        simp only [hp] at he
        cases hd : w.dialErr with
        | some e0 =>
            simp only [hd] at he
            injection he with h
            exact ⟨_, _, h.symm⟩
        | none =>
            simp only [hd] at he
            cases hs : w.sendErr with
            | some e0 =>
                simp only [hs] at he
                injection he with h
                exact ⟨_, _, h.symm⟩
            | none =>
                simp only [hs] at he
                cases hst : w.statusErr with
                | some e0 =>
                    simp only [hst] at he
                    injection he with h
                    exact ⟨_, _, h.symm⟩
                | none =>
                    simp only [hst] at he
                    cases hr : w.readEofRes with
                    | error e0 =>
                        simp only [hr] at he
                        injection he with h
                        exact ⟨_, _, h.symm⟩
                    | ok resp =>
                        simp only [hr] at he
                        exact Except.noConfusion he
  · intro e he
    unfold Device.Remount at he
    cases hd : w.dialErr with
    | some e0 =>
        simp only [hd] at he
        injection he with h
        exact ⟨_, _, h.symm⟩
    | none =>
        simp only [hd] at he
        cases hr : w.roundTripRes with
        | error e0 =>
            simp only [hr] at he
            injection he with h
            exact ⟨_, _, h.symm⟩
        | ok resp =>
            simp only [hr] at he
            exact Except.noConfusion he
  · intro e he
    unfold Device.ListDirEntries at he
    cases hs : w.syncErr with
    | some e0 =>
        simp only [hs] at he
        injection he with h
        exact ⟨_, _, h.symm⟩
    | none =>
        simp only [hs] at he
        cases hl : w.listDirErr with
        | some e0 =>
            simp only [hl] at he
            injection he with h
            exact ⟨_, _, h.symm⟩
        | none =>
            simp only [hl] at he
            exact Except.noConfusion he
  · intro e he
    unfold Device.Stat at he
    cases hs : w.syncErr with
    | some e0 =>
        simp only [hs] at he
        injection he with h
        exact ⟨_, _, h.symm⟩
    | none =>
        simp only [hs] at he
        cases hl : w.statErr with
        | some e0 =>
            simp only [hl] at he
            injection he with h
            exact ⟨_, _, h.symm⟩
        | none =>
            simp only [hl] at he
            exact Except.noConfusion he
  · intro e he
    unfold Device.OpenRead at he
    cases hs : w.syncErr with
    | some e0 =>
        simp only [hs] at he
        injection he with h
        exact ⟨_, _, h.symm⟩
    | none =>
        simp only [hs] at he
        cases hl : w.openReadErr with
        | some e0 =>
            simp only [hl] at he
            injection he with h
            exact ⟨_, _, h.symm⟩
        | none =>
            simp only [hl] at he
            exact Except.noConfusion he
  · intro e he
    unfold Device.OpenWrite at he
    cases hs : w.syncErr with
    | some e0 =>
        simp only [hs] at he
        injection he with h
        exact ⟨_, _, h.symm⟩
    | none =>
        simp only [hs] at he
        cases hl : w.openWriteErr with
        | some e0 =>
            simp only [hl] at he
            injection he with h
            exact ⟨_, _, h.symm⟩
        | none =>
            simp only [hl] at he
            exact Except.noConfusion he
  · unfold Device.RunCommandV2WithStd
    cases hp : prepareCommandLine cmd args with
    | error e0 =>
        simp only [hp]
        exact Or.inr ⟨_, rfl, _, _, rfl⟩
    | ok cl =>
        simp only [hp]
        cases hd : w.dialErr with
        | some e0 =>
            simp only []
            exact Or.inr ⟨_, rfl, _, _, rfl⟩
        | none =>
            cases hs : w.sendErr with
            | some e0 => exact Or.inr ⟨_, rfl, _, _, rfl⟩
            | none =>
                cases hst : w.statusErr with
                | some e0 => exact Or.inr ⟨_, rfl, _, _, rfl⟩
                | none => exact Or.inl rfl

/-- An all-failing run used to exercise the wrapped-error theorem. -/
def wAllFail : World :=
  ⟨Except.error (CErr.go ("x".toList)), Except.error (CErr.go ("x".toList)),
    some (CErr.go ("x".toList)), some (CErr.go ("x".toList)), some (CErr.go ("x".toList)),
    Except.error (CErr.go ("x".toList)), 0, some (CErr.go ("x".toList)),
    Except.error (CErr.go ("x".toList)), some (CErr.go ("x".toList)),
    some (CErr.go ("x".toList)), some (CErr.go ("x".toList)),
    some (CErr.go ("x".toList)), some (CErr.go ("x".toList))⟩

/-- Witness for the amended C9 theorem: concrete failing runs of Serial
and Remount produce errors wrapped with the descriptor. -/
theorem device_errors_wrapped_witness :
    wrappedFor ("d1".toList) (CErr.client ("Serial".toList) ("d1".toList) (CErr.go ("x".toList))) ∧
    wrappedFor ("d1".toList) (CErr.client ("Remount".toList) ("d1".toList) (CErr.go ("x".toList))) := by
  have h := device_errors_wrapped ("d1".toList) ("ls".toList) ("/p".toList) [] wAllFail
  exact ⟨h.1 _ rfl, h.2.2.2.2.2.1 _ rfl⟩

/-! ## `Pull` and `Push` (source lines 313-352) -/

/-- The collaborator outcomes one Pull or Push run can consume. -/
structure TransferWorld where
  statRes : Option CErr
  openReadRes : Option CErr
  copyRes : Option CErr
  openWriteRes : Option CErr
  writeCopyRes : Option CErr

/-- The collaborator calls Pull and Push can make, in order, recorded as
a trace. -/
inductive SyncStep where
  | statStep
  | openReadStep
  | copyStep
  | openWriteStep
  | writeStep
deriving DecidableEq

/-- The guard messages of Pull and Push. -/
def emptyRemoteMsg : List Char := "remotePath cannot be empty".toList

def nilLocalMsg : List Char := "localFile cannot be nil".toList

/-- `Pull`: guard the arguments, then Stat, OpenRead and CopyN; the
second component is the trace of collaborator calls made. -/
def Pull (remotePath : List Char) (localFile : Option Unit) (w : TransferWorld) :
    Option CErr × List SyncStep :=
  if remotePath = [] then (some (CErr.mk ErrCode.AssertionError emptyRemoteMsg), [])
  else if localFile = none then (some (CErr.mk ErrCode.AssertionError nilLocalMsg), [])
  else
    match w.statRes with
    | some e => (some e, [SyncStep.statStep])
    | none =>
      match w.openReadRes with
      | some e => (some e, [SyncStep.statStep, SyncStep.openReadStep])
      | none =>
        match w.copyRes with
        | some e => (some e, [SyncStep.statStep, SyncStep.openReadStep, SyncStep.copyStep])
        | none => (none, [SyncStep.statStep, SyncStep.openReadStep, SyncStep.copyStep])

/-- `Push`: guard the arguments, then OpenWrite and Copy. -/
def Push (localFile : Option Unit) (remotePath : List Char) (w : TransferWorld) :
    Option CErr × List SyncStep :=
  if remotePath = [] then (some (CErr.mk ErrCode.AssertionError emptyRemoteMsg), [])
  else if localFile = none then (some (CErr.mk ErrCode.AssertionError nilLocalMsg), [])
  else
    match w.openWriteRes with
    | some e => (some e, [SyncStep.openWriteStep])
    | none =>
      match w.writeCopyRes with
      | some e => (some e, [SyncStep.openWriteStep, SyncStep.writeStep])
      | none => (none, [SyncStep.openWriteStep, SyncStep.writeStep])

/-- C10: Pull and Push reject an empty remote path, and a nil local
file, with an AssertionError and an empty collaborator-call trace — no
session is opened and no network request is made on the rejection
paths. -/
theorem pull_push_guards (remotePath : List Char) (localFile : Option Unit) (w : TransferWorld) :
    (remotePath = [] →
      Pull remotePath localFile w = (some (CErr.mk ErrCode.AssertionError emptyRemoteMsg), []) ∧
      Push localFile remotePath w = (some (CErr.mk ErrCode.AssertionError emptyRemoteMsg), [])) ∧
    (remotePath ≠ [] → localFile = none →
      Pull remotePath localFile w = (some (CErr.mk ErrCode.AssertionError nilLocalMsg), []) ∧
      Push localFile remotePath w = (some (CErr.mk ErrCode.AssertionError nilLocalMsg), [])) := by
  constructor
  · intro hr
    constructor
    · unfold Pull
      rw [if_pos hr]
    · unfold Push
      rw [if_pos hr]
  · intro hr hl
    constructor
    · unfold Pull
      rw [if_neg hr, if_pos hl]
    · unfold Push
      rw [if_neg hr, if_pos hl]

/-- Witness for C10: the guards fire on concrete inputs with an empty
trace. -/
theorem pull_push_guards_witness :
    Pull [] (some ()) ⟨none, none, none, none, none⟩ =
      (some (CErr.mk ErrCode.AssertionError emptyRemoteMsg), []) ∧
    Push none ['p'] ⟨none, none, none, none, none⟩ =
      (some (CErr.mk ErrCode.AssertionError nilLocalMsg), []) :=
  ⟨((pull_push_guards [] (some ()) ⟨none, none, none, none, none⟩).1 rfl).1,
   ((pull_push_guards ['p'] none ⟨none, none, none, none, none⟩).2 (by decide) rfl).2⟩

end GoAdb
